import Mathlib

/-!
Shallow embedding of `fedimint-server/src/config/io.rs` (federation bootstrap
configuration subsystem): connection-string codec (`parse_peer_params`,
the `format!` in `gen_tls`), TLS identity generation (`create_cert`,
`gen_tls`), and the peer-roster / DKG orchestration entry point (`run_dkg`).

Rust strings are modelled as `List Char` (Rust's `String` ordering is
byte-wise lexicographic on UTF-8, which coincides with code-point
lexicographic order, i.e. the `List Char` lexicographic order).
Bytes are `Fin 256`.  External collaborators (the `url` crate's URL type,
the `aead` crate, `gen_cert_and_key`, the rustls server-name check, the
network/DKG protocol) are parameters of the model: the embedding is
parametric in a `UrlModel` and the random/crypto outputs appear as
explicit arguments, exactly where the Rust code consumes them.
-/

namespace FedimintConfig

/-- Rust `String` / `&str`, modelled as its list of characters. -/
abbrev Str := List Char

/-- A byte (`u8`). -/
abbrev Byte := Fin 256

/-! ### Hex codec (`bitcoin_hashes::hex::{FromHex, ToHex}`) -/

/-- Value of a single hexadecimal digit; accepts both cases, as Rust's
`FromHex` does.  Digit ranges are given by ASCII code (48–57 is `0`–`9`,
97–102 is `a`–`f`, 65–70 is `A`–`F`). -/
def hexDigitVal (c : Char) : Option (Fin 16) :=
  if h : 48 ≤ c.toNat ∧ c.toNat ≤ 57 then some ⟨c.toNat - 48, by omega⟩
  else if h : 97 ≤ c.toNat ∧ c.toNat ≤ 102 then
    some ⟨c.toNat - 97 + 10, by omega⟩
  else if h : 65 ≤ c.toNat ∧ c.toNat ≤ 70 then
    some ⟨c.toNat - 65 + 10, by omega⟩
  else none

/-- The lowercase hexadecimal digit for a value below 16 (Rust's `ToHex`
emits lowercase): code 48 + d for digits, code 87 + d for letters
(87 + 10 = 97 = `a`). -/
def hexDigit (d : Fin 16) : Char :=
  if d.val < 10 then Char.ofNat (48 + d.val)
  else Char.ofNat (87 + d.val)

/-- Two lowercase hex digits of one byte. -/
def byteToHex (b : Byte) : Str :=
  [hexDigit ⟨b.val / 16, by omega⟩, hexDigit ⟨b.val % 16, by omega⟩]

/-- `ToHex` for a byte slice: concatenation of two lowercase digits per
byte. -/
def toHex (bs : List Byte) : Str :=
  (bs.map byteToHex).flatten

/-- `Vec::<u8>::from_hex`: decodes pairs of hex digits (either case);
fails on odd length or on a non-hex character. -/
def fromHex : Str → Option (List Byte)
  | [] => some []
  | [_] => none
  | c1 :: c2 :: rest =>
    match hexDigitVal c1, hexDigitVal c2, fromHex rest with
    | some hi, some lo, some bs => some (⟨16 * hi.val + lo.val, by omega⟩ :: bs)
    | _, _, _ => none

/-! ### Splitting on `@` (Rust `str::split('@')`) -/

/-- Rust `s.split('@').collect::<Vec<_>>()`: fields between occurrences of
`'@'`, empty fields preserved; a string with `n` separators yields `n + 1`
fields. -/
def splitOnAt : Str → List Str
  | [] => [[]]
  | c :: rest =>
    if c = '@' then [] :: splitOnAt rest
    else
      match splitOnAt rest with
      | [] => [[c]]
      | f :: fs => (c :: f) :: fs

/-! ### External URL collaborator -/

/-- Interface of the `url` crate as consumed by the code: a type of URLs
with a parser (`str::parse::<Url>`) and a printer (the `Display`
instance used by `format!`). -/
structure UrlModel where
  Url : Type
  parse : Str → Option Url
  print : Url → Str

/-- `PeerServerParams`: public identity of one peer (certificate DER
bytes, p2p URL, API URL, display name). -/
structure PeerServerParams (M : UrlModel) where
  cert : List Byte
  p2p_url : M.Url
  api_url : M.Url
  name : Str

instance (M : UrlModel) [DecidableEq M.Url] :
    DecidableEq (PeerServerParams M) := fun a b =>
  if h1 : a.cert = b.cert then
    if h2 : a.p2p_url = b.p2p_url then
      if h3 : a.api_url = b.api_url then
        if h4 : a.name = b.name then
          isTrue (by cases a; cases b; simp_all)
        else isFalse (by cases a; cases b; simp_all)
      else isFalse (by cases a; cases b; simp_all)
    else isFalse (by cases a; cases b; simp_all)
  else isFalse (by cases a; cases b; simp_all)

/-- Error outcomes (`anyhow::Error` values), one constructor per distinct
error site of the embedded code. -/
inductive Err where
  /-- the `ensure!` in `parse_peer_params`:
  "Cert string has wrong number of fields" -/
  | wrongFieldCount : Err
  /-- a URL field failed `str::parse` -/
  | urlParse : Err
  /-- `Vec::from_hex` failed on the certificate field -/
  | hexParse : Err
  /-- a filesystem operation failed (file absent) -/
  | io : String → Err
  /-- `gen_cert_and_key` failed -/
  | tlsGen : Err
  /-- `rustls::ServerName::try_from` rejected the name -/
  | invalidServerName : Err
  /-- the `ok_or_else` in `run_dkg`: "Our id not found" -/
  | ourIdNotFound : Err
  /-- an error produced by the network / DKG collaborators -/
  | dkgFailed : Err
deriving DecidableEq

/-! ### Connection-string codec -/

/-- `parse_peer_params`: split on `'@'`, require exactly four fields,
parse the two URLs, hex-decode the certificate field. -/
def parse_peer_params (M : UrlModel) (url : Str) :
    Except Err (PeerServerParams M) :=
  let split := splitOnAt url
  if h : split.length = 4 then
    match M.parse (split.get ⟨0, by omega⟩) with
    | none => .error .urlParse
    | some p2p_url =>
      match M.parse (split.get ⟨1, by omega⟩) with
      | none => .error .urlParse
      | some api_url =>
        match fromHex (split.get ⟨3, by omega⟩) with
        | none => .error .hexParse
        | some hex_cert =>
          .ok { cert := hex_cert, p2p_url := p2p_url, api_url := api_url,
                name := split.get ⟨2, by omega⟩ }
  else .error .wrongFieldCount

/-- The `format!("{}@{}@{}@{}", p2p_url, api_url, name, cert.0.to_hex())`
in `gen_tls`. -/
def format_peer_params (M : UrlModel) (p2p_url api_url : M.Url)
    (name : Str) (cert : List Byte) : Str :=
  M.print p2p_url ++ ('@' :: (M.print api_url ++ ('@' :: (name ++ ('@' :: toHex cert)))))

/-- Trivial instantiation of the URL collaborator, used to evaluate the
model on concrete inputs: URLs are their own text. -/
def MId : UrlModel where
  Url := Str
  parse := some
  print := id

instance : DecidableEq MId.Url := fun a b =>
  (inferInstance : DecidableEq Str) a b

/-! ### Sorting (Rust `Itertools::sorted` on `Vec<String>`) -/

/-- `certs.into_iter().sorted()`: ascending sort in the lexicographic
order of `String`'s `Ord` (byte order on UTF-8, i.e. code-point order).
Comparison-equal strings are equal, so the sorted sequence is the unique
sorted permutation of the input and the choice of sorting algorithm is
immaterial. -/
def sortCerts (certs : List Str) : List Str :=
  List.insertionSort (fun a b : Str => a ≤ b) certs

/-! ### Filesystem model

A single configuration directory; files are an association list from file
name to content.  Writes are decomposed into the primitive operations the
Rust code issues (`fs::write` and `File::create` + serialize both
open/truncate the target and then write the content into it), so that the
write pattern itself is observable. -/

/-- A primitive filesystem operation. -/
inductive FsOp where
  /-- open with create/truncate (`File::create`, the opening step of
  `fs::write`): the file now exists and is empty -/
  | create : String → FsOp
  /-- write the full content into the (existing) file -/
  | writeAll : String → Str → FsOp
  /-- atomically rename `src` over `dst` -/
  | rename : String → String → FsOp
deriving DecidableEq

/-- The directory contents: file name to file content. -/
abbrev FS := List (String × Str)

/-- Set a file's content (creating it if absent). -/
def fsSet (fs : FS) (name : String) (content : Str) : FS :=
  match fs with
  | [] => [(name, content)]
  | (n, c) :: rest =>
    if n = name then (name, content) :: rest
    else (n, c) :: fsSet rest name content

/-- Read a file (`fs::read_to_string`); `none` when absent. -/
def fsRead (fs : FS) (name : String) : Option Str :=
  match fs with
  | [] => none
  | (n, c) :: rest => if n = name then some c else fsRead rest name

/-- Remove a file. -/
def fsRemove (fs : FS) (name : String) : FS :=
  match fs with
  | [] => []
  | (n, c) :: rest =>
    if n = name then fsRemove rest name else (n, c) :: fsRemove rest name

/-- Effect of one primitive operation on the directory. -/
def applyOp (fs : FS) : FsOp → FS
  | .create name => fsSet fs name []
  | .writeAll name content => fsSet fs name content
  | .rename src dst =>
    match fsRead fs src with
    | none => fs
    | some c => fsSet (fsRemove fs src) dst c

/-- Replay a sequence of primitive operations. -/
def replay (fs : FS) : List FsOp → FS
  | [] => fs
  | op :: rest => replay (applyOp fs op) rest

/-- The primitive operations of one plain write call (`fs::write`, or
`File::create` followed by writing the serialized value): open/truncate
the target, then write the content — no temporary file, no rename. -/
def fsWriteOps (name : String) (content : Str) : List FsOp :=
  [.create name, .writeAll name content]

/-- State effect of one plain write call. -/
def fsWrite (fs : FS) (name : String) (content : Str) : FS :=
  replay fs (fsWriteOps name content)

/-- File name constants from `io.rs`. -/
def SALT_FILE : String := "private.salt"

/-- `TLS_PK`: encrypted TLS private key file. -/
def TLS_PK : String := "tls-pk"

/-- `TLS_CERT`: TLS public certificate (connection string) file. -/
def TLS_CERT : String := "tls-cert"

/-- `CONSENSUS_CONFIG` base name. -/
def CONSENSUS_CONFIG : String := "consensus"

/-- `path.with_extension(JSON_EXT)`. -/
def withJsonExt (name : String) : String := name ++ ".json"

/-- Primitive operations issued by `plaintext_json_write` for a value
that serializes to `content`: `File::create(path.with_extension("json"))`
followed by `serde_json::to_writer_pretty`. -/
def plaintext_json_write_ops (name : String) (content : Str) : List FsOp :=
  fsWriteOps (withJsonExt name) content

/-- Modelled from the spec: "Writes … MUST be atomic at the filesystem
level (write-to-temp, fsync, rename, fsync-directory)" — the operation
sequence writes the content to a temporary file, then renames the
temporary file over the target (fsyncs have no effect in this model). -/
def AtomicWritePattern (ops : List FsOp) (target : String) : Prop :=
  ∃ tmp content, tmp ≠ target ∧
    ops = [FsOp.writeAll tmp content, FsOp.rename tmp target]

/-! ### `create_cert` / `gen_tls` -/

/-- Outcomes of the external random / crypto collaborators consumed by
`create_cert` and `gen_tls`: the 16 random salt bytes (`rand::random`),
the generated certificate DER and the sealed private-key file content
(`gen_cert_and_key`, `encrypted_write`), whether `gen_cert_and_key`
succeeds, and whether `rustls::ServerName::try_from(name)` succeeds. -/
structure CertEnv where
  saltBytes : List Byte
  certBytes : List Byte
  pkSealed : Str
  genOk : Bool
  nameValid : Bool

/-- `gen_tls`: generate certificate and key, seal and write the private
key to `tls-pk`, check the server name, compose the connection string,
write it to `tls-cert`, and return it. -/
def gen_tls (M : UrlModel) (env : CertEnv) (p2p_url api_url : M.Url)
    (name : Str) (fs : FS) : FS × Except Err Str :=
  if env.genOk = false then (fs, .error .tlsGen)
  else
    let fs1 := fsWrite fs TLS_PK env.pkSealed
    if env.nameValid = false then (fs1, .error .invalidServerName)
    else
      let cert_url := format_peer_params M p2p_url api_url name env.certBytes
      (fsWrite fs1 TLS_CERT cert_url, .ok cert_url)

/-- `create_cert`: write a fresh random salt (hex-encoded) to
`private.salt` — unconditionally, the code performs no existence check —
derive the key (`get_key` reads the salt file back), then `gen_tls`. -/
def create_cert (M : UrlModel) (env : CertEnv) (p2p_url api_url : M.Url)
    (name : Str) (fs : FS) : FS × Except Err Str :=
  let fs1 := fsWrite fs SALT_FILE (toHex env.saltBytes)
  match fsRead fs1 SALT_FILE with
  | none => (fs1, .error (.io SALT_FILE))
  | some _ => gen_tls M env p2p_url api_url name fs1

/-! ### `run_dkg` -/

/-- `PeerId::from(idx as u16)`: the `usize → u16` cast truncates
modulo 2^16. -/
def PeerIdFrom (idx : Nat) : Nat := idx % 65536

/-- `BTreeMap::insert`, on a key-sorted association list: replaces the
value when the key is present, otherwise inserts in key order. -/
def btreeInsert {α : Type} (k : Nat) (v : α) :
    List (Nat × α) → List (Nat × α)
  | [] => [(k, v)]
  | (k', v') :: rest =>
    if k < k' then (k, v) :: (k', v') :: rest
    else if k = k' then (k, v) :: rest
    else (k', v') :: btreeInsert k v rest

/-- The `for (idx, cert) in certs.into_iter().sorted().enumerate()` loop
body: parse each connection string (propagating its error) and insert it
under `PeerId::from(idx as u16)`. -/
def assignLoop (M : UrlModel) (m : List (Nat × PeerServerParams M))
    (idx : Nat) : List Str → Except Err (List (Nat × PeerServerParams M))
  | [] => .ok m
  | c :: rest =>
    match parse_peer_params M c with
    | .error e => .error e
    | .ok p => assignLoop M (btreeInsert (PeerIdFrom idx) p m) (idx + 1) rest

/-- Step 1 of `run_dkg`: the peer roster built from `certs`, keyed by
assigned `PeerId`. -/
def assignPeers (M : UrlModel) (certs : List Str) :
    Except Err (List (Nat × PeerServerParams M)) :=
  assignLoop M [] 0 (sortCerts certs)

/-- A network-visible event of `run_dkg`; `connect` marks the single
`connect(…)` call that opens the TLS connections to the peers. -/
inductive NetEvent where
  | connect : NetEvent
deriving DecidableEq

/-- The network / DKG collaborators (`connect`,
`PeerConnectionMultiplexer`, `ServerConfig::distributed_gen`): given our
peer id and the roster, they produce a `ServerConfig` (of opaque type
`Cfg`) or fail; both `?` operators of the Rust code propagate into the
`Except`. -/
structure DkgEnv (M : UrlModel) (Cfg : Type) where
  dkg : Nat → List (Nat × PeerServerParams M) → Except Err Cfg

/-- `run_dkg`: build the sorted roster, read and parse `dir/tls-cert`,
locate our id by certificate bytes (`BTreeMap::iter` visits keys in
ascending order), then connect and run DKG.  Returns the final directory
state, the network events, and the result. -/
def run_dkg (M : UrlModel) (Cfg : Type) (env : DkgEnv M Cfg)
    (certs : List Str) (fs : FS) : FS × List NetEvent × Except Err Cfg :=
  match assignPeers M certs with
  | .error e => (fs, [], .error e)
  | .ok peers =>
    match fsRead fs TLS_CERT with
    | none => (fs, [], .error (.io TLS_CERT))
    | some cert_string =>
      match parse_peer_params M cert_string with
      | .error e => (fs, [], .error e)
      | .ok our_params =>
        match peers.find? (fun pc => pc.2.cert = our_params.cert) with
        | none => (fs, [], .error .ourIdNotFound)
        | some (our_id, _) =>
          match env.dkg our_id peers with
          | .error e => (fs, [.connect], .error e)
          | .ok cfg => (fs, [.connect], .ok cfg)

/-- Success test for `Except` (Rust `Result::is_ok`). -/
def exceptIsOk {ε α : Type} : Except ε α → Bool
  | .ok _ => true
  | .error _ => false

instance {ε α : Type} [DecidableEq ε] [DecidableEq α] :
    DecidableEq (Except ε α) := fun a b =>
  match a, b with
  | .ok x, .ok y =>
    if h : x = y then isTrue (by rw [h]) else isFalse (by simp [h])
  | .error x, .error y =>
    if h : x = y then isTrue (by rw [h]) else isFalse (by simp [h])
  | .ok _, .error _ => isFalse (by simp)
  | .error _, .ok _ => isFalse (by simp)

/-- The specification shape of step 1 of `run_dkg`: sort the connection
strings, enumerate, parse each, pair the string at sorted index `i` with
`PeerId::from(i as u16)`, and collect into the map. -/
def assignSpec (M : UrlModel) (certs : List Str) :
    Except Err (List (Nat × PeerServerParams M)) :=
  ((sortCerts certs).enum.mapM
      (fun ic =>
        Except.map (fun p => (PeerIdFrom ic.1, p)) (parse_peer_params M ic.2))).map
    (fun pairs => pairs.foldl (fun m kv => btreeInsert kv.1 kv.2 m) [])

/-! ## Lemmas about the filesystem model -/

theorem fsRead_fsSet_self (fs : FS) (n : String) (c : Str) :
    fsRead (fsSet fs n c) n = some c := by
  induction fs with
  | nil => simp [fsSet, fsRead]
  | cons p rest ih =>
    obtain ⟨n', c'⟩ := p
    by_cases h : n' = n
    · simp [fsSet, fsRead, h]
    · simp [fsSet, fsRead, h, ih]

theorem fsRead_fsSet_ne (fs : FS) {n n' : String} (h : n' ≠ n) (c : Str) :
    fsRead (fsSet fs n c) n' = fsRead fs n' := by
  induction fs with
  | nil => simp [fsSet, fsRead, Ne.symm h]
  | cons p rest ih =>
    obtain ⟨m, c'⟩ := p
    by_cases hm : m = n
    · subst hm
      simp [fsSet, fsRead, Ne.symm h, h]
    · by_cases hm' : m = n' <;> simp [fsSet, fsRead, hm, hm', ih, h]

theorem fsWrite_eq (fs : FS) (n : String) (c : Str) :
    fsWrite fs n c = fsSet (fsSet fs n []) n c := rfl

theorem fsRead_fsWrite_self (fs : FS) (n : String) (c : Str) :
    fsRead (fsWrite fs n c) n = some c := by
  rw [fsWrite_eq]; exact fsRead_fsSet_self _ _ _

theorem fsRead_fsWrite_ne (fs : FS) {n n' : String} (h : n' ≠ n) (c : Str) :
    fsRead (fsWrite fs n c) n' = fsRead fs n' := by
  rw [fsWrite_eq, fsRead_fsSet_ne _ h, fsRead_fsSet_ne _ h]

/-! ## Lemmas about `splitOnAt` -/

theorem splitOnAt_no_at {s : Str} (h : '@' ∉ s) : splitOnAt s = [s] := by
  induction s with
  | nil => rfl
  | cons c rest ih =>
    simp only [List.mem_cons, not_or] at h
    rw [splitOnAt, if_neg (fun hc => h.1 hc.symm), ih h.2]

theorem splitOnAt_append (a rest : Str) (h : '@' ∉ a) :
    splitOnAt (a ++ '@' :: rest) = a :: splitOnAt rest := by
  induction a with
  | nil => simp [splitOnAt]
  | cons c as ih =>
    simp only [List.mem_cons, not_or] at h
    rw [List.cons_append, splitOnAt, if_neg (fun hc => h.1 hc.symm), ih h.2]

/-! ## Lemmas about the hex codec -/

theorem hexDigitVal_hexDigit (d : Fin 16) : hexDigitVal (hexDigit d) = some d := by
  revert d; decide

theorem hexDigit_ne_at (d : Fin 16) : hexDigit d ≠ '@' := by revert d; decide

theorem toHex_nil : toHex [] = [] := rfl

theorem toHex_cons (b : Byte) (bs : List Byte) :
    toHex (b :: bs) = byteToHex b ++ toHex bs := by
  simp [toHex]

theorem toHex_no_at (bs : List Byte) : '@' ∉ toHex bs := by
  induction bs with
  | nil => simp [toHex_nil]
  | cons b bs ih =>
    rw [toHex_cons]
    intro hmem
    rcases List.mem_append.mp hmem with hb | hb
    · simp only [byteToHex, List.mem_cons, List.not_mem_nil, or_false] at hb
      rcases hb with h1 | h1 <;> exact hexDigit_ne_at _ h1.symm
    · exact ih hb

theorem fromHex_toHex (bs : List Byte) : fromHex (toHex bs) = some bs := by
  induction bs with
  | nil => rfl
  | cons b bs ih =>
    rw [toHex_cons]
    show fromHex (hexDigit _ :: hexDigit _ :: toHex bs) = _
    simp only [fromHex, hexDigitVal_hexDigit, ih]
    simp only [Option.some.injEq, List.cons.injEq, and_true]
    apply Fin.ext
    show 16 * (b.val / 16) + b.val % 16 = b.val
    omega

theorem fromHex_isSome_iff :
    ∀ (s : Str), (fromHex s).isSome = true ↔
      s.length % 2 = 0 ∧ ∀ c ∈ s, (hexDigitVal c).isSome = true
  | [] => by simp [fromHex]
  | [c] => by simp [fromHex]
  | c1 :: c2 :: rest => by
    have ih := fromHex_isSome_iff rest
    rw [fromHex]
    have hmod : (rest.length + 1 + 1) % 2 = rest.length % 2 := by omega
    cases h1 : hexDigitVal c1 <;> cases h2 : hexDigitVal c2 <;>
      cases h3 : fromHex rest <;>
      simp_all only [Option.isSome_some, Option.isSome_none, List.length_cons,
        List.forall_mem_cons, true_and, false_and, and_false, and_true,
        iff_true, iff_false, true_iff, false_iff, not_and, Bool.true_eq_false,
        Bool.false_eq_true]
    all_goals simp

/-! ## Lemmas about sorting -/

theorem sortCerts_perm (certs : List Str) : (sortCerts certs).Perm certs :=
  List.perm_insertionSort _ certs

theorem sortCerts_sorted (certs : List Str) :
    List.Sorted (fun a b : Str => a ≤ b) (sortCerts certs) :=
  List.sorted_insertionSort _ certs

theorem sortCerts_eq_of_perm {l₁ l₂ : List Str} (h : l₁.Perm l₂) :
    sortCerts l₁ = sortCerts l₂ :=
  List.eq_of_perm_of_sorted
    ((sortCerts_perm l₁).trans (h.trans (sortCerts_perm l₂).symm))
    (sortCerts_sorted l₁) (sortCerts_sorted l₂)

/-! ## Lemmas about the peer-id assignment -/

theorem assignLoop_isOk (M : UrlModel) (l : List Str) :
    ∀ (m : List (Nat × PeerServerParams M)) (idx : Nat),
    (∀ c ∈ l, exceptIsOk (parse_peer_params M c) = true) →
    exceptIsOk (assignLoop M m idx l) = true := by
  induction l with
  | nil => intro m idx _; rfl
  | cons c rest ih =>
    intro m idx h
    have hc := h c (by simp)
    cases hp : parse_peer_params M c with
    | error e => rw [hp] at hc; simp [exceptIsOk] at hc
    | ok p =>
      simp only [assignLoop, hp]
      exact ih _ _ (fun c' hc' => h c' (by simp [hc']))

theorem assignPeers_isOk (M : UrlModel) (certs : List Str)
    (h : ∀ c ∈ certs, exceptIsOk (parse_peer_params M c) = true) :
    exceptIsOk (assignPeers M certs) = true :=
  assignLoop_isOk M (sortCerts certs) [] 0
    (fun c hc => h c ((sortCerts_perm certs).mem_iff.mp hc))

theorem btreeInsert_append {α : Type} (k : Nat) (v : α) (m : List (Nat × α))
    (h : ∀ p ∈ m, p.1 < k) : btreeInsert k v m = m ++ [(k, v)] := by
  induction m with
  | nil => rfl
  | cons p rest ih =>
    obtain ⟨k', v'⟩ := p
    have hk : k' < k := h (k', v') (by simp)
    rw [btreeInsert, if_neg (by omega), if_neg (by omega),
      ih (fun q hq => h q (by simp [hq]))]
    simp

theorem assignLoop_keys (M : UrlModel) (l : List Str) :
    ∀ (m m' : List (Nat × PeerServerParams M)) (idx : Nat),
    m.map Prod.fst = List.range idx →
    idx + l.length ≤ 65536 →
    assignLoop M m idx l = .ok m' →
    m'.map Prod.fst = List.range (idx + l.length) := by
  induction l with
  | nil =>
    intro m m' idx hkeys _ h
    simp only [assignLoop, Except.ok.injEq] at h
    subst h
    simpa using hkeys
  | cons c rest ih =>
    intro m m' idx hkeys hlen h
    rw [List.length_cons] at hlen
    simp only [assignLoop] at h
    cases hp : parse_peer_params M c with
    | error e =>
      simp only [hp] at h
      exact (Except.noConfusion h)
    | ok p =>
      simp only [hp] at h
      have hidx : idx < 65536 := by omega
      have hins : btreeInsert (PeerIdFrom idx) p m = m ++ [(idx, p)] := by
        rw [show PeerIdFrom idx = idx from Nat.mod_eq_of_lt hidx]
        apply btreeInsert_append
        intro q hq
        have hq' : q.1 ∈ m.map Prod.fst := List.mem_map_of_mem _ hq
        rw [hkeys] at hq'
        exact List.mem_range.mp hq'
      rw [hins] at h
      have hkeys' : (m ++ [(idx, p)]).map Prod.fst = List.range (idx + 1) := by
        rw [List.map_append, hkeys, List.range_succ]
        rfl
      have hres := ih (m ++ [(idx, p)]) m' (idx + 1) hkeys' (by omega) h
      rw [hres]
      congr 1
      simp only [List.length_cons]
      omega

theorem assignLoop_eq_enum (M : UrlModel) (l : List Str) :
    ∀ (m : List (Nat × PeerServerParams M)) (idx : Nat),
    assignLoop M m idx l =
      ((l.enumFrom idx).mapM
          (fun ic =>
            Except.map (fun p => (PeerIdFrom ic.1, p))
              (parse_peer_params M ic.2))).map
        (fun pairs => pairs.foldl (fun mm kv => btreeInsert kv.1 kv.2 mm) m) := by
  induction l with
  | nil => intro m idx; rfl
  | cons c rest ih =>
    intro m idx
    rw [List.enumFrom_cons, List.mapM_cons]
    cases hp : parse_peer_params M c with
    | error e =>
      simp [assignLoop, hp, Except.map, bind, Except.bind]
    | ok p =>
      simp only [assignLoop, hp]
      rw [ih]
      cases hrest : (rest.enumFrom (idx + 1)).mapM
          (fun ic =>
            Except.map (fun p => (PeerIdFrom ic.1, p))
              (parse_peer_params M ic.2)) with
      | error e => simp [hrest, Except.map, bind, Except.bind]
      | ok pairs => simp [hrest, Except.map, bind, Except.bind, pure, Except.pure]

theorem assignPeers_eq_assignSpec (M : UrlModel) (certs : List Str) :
    assignPeers M certs = assignSpec M certs := by
  rw [assignPeers, assignSpec, List.enum_eq_enumFrom, assignLoop_eq_enum]

/-! ## Lemmas about the connection-string codec -/

theorem exists_four {α : Type} {l : List α} (h : l.length = 4) :
    ∃ a b c d, l = [a, b, c, d] := by
  cases l with
  | nil => simp at h
  | cons a t =>
    cases t with
    | nil => simp at h
    | cons b t =>
      cases t with
      | nil => simp at h
      | cons c t =>
        cases t with
        | nil => simp at h
        | cons d t =>
          cases t with
          | nil => exact ⟨a, b, c, d, rfl⟩
          | cons e t => simp [List.length_cons] at h

theorem parse_peer_params_of_split (M : UrlModel) {s f1 f2 f3 f4 : Str}
    (hs : splitOnAt s = [f1, f2, f3, f4]) :
    parse_peer_params M s =
      match M.parse f1 with
      | none => .error .urlParse
      | some p2p_url =>
        match M.parse f2 with
        | none => .error .urlParse
        | some api_url =>
          match fromHex f4 with
          | none => .error .hexParse
          | some hex_cert =>
            .ok { cert := hex_cert, p2p_url := p2p_url, api_url := api_url,
                  name := f3 } := by
  simp [parse_peer_params, hs]

theorem parse_peer_params_wrong_count (M : UrlModel) {s : Str}
    (h : (splitOnAt s).length ≠ 4) :
    parse_peer_params M s = .error .wrongFieldCount := by
  simp [parse_peer_params, h]

theorem splitOnAt_format (M : UrlModel) (p2p api : M.Url) (name : Str)
    (cert : List Byte) (h1 : '@' ∉ M.print p2p) (h2 : '@' ∉ M.print api)
    (h3 : '@' ∉ name) :
    splitOnAt (format_peer_params M p2p api name cert) =
      [M.print p2p, M.print api, name, toHex cert] := by
  rw [format_peer_params, splitOnAt_append _ _ h1, splitOnAt_append _ _ h2,
    splitOnAt_append _ _ h3, splitOnAt_no_at (toHex_no_at cert)]

theorem parse_format (M : UrlModel) (p2p api : M.Url) (name : Str)
    (cert : List Byte)
    (hp2p : M.parse (M.print p2p) = some p2p)
    (hapi : M.parse (M.print api) = some api)
    (h1 : '@' ∉ M.print p2p) (h2 : '@' ∉ M.print api) (h3 : '@' ∉ name) :
    parse_peer_params M (format_peer_params M p2p api name cert) =
      .ok { cert := cert, p2p_url := p2p, api_url := api, name := name } := by
  rw [parse_peer_params_of_split M (splitOnAt_format M p2p api name cert h1 h2 h3),
    hp2p, hapi, fromHex_toHex]

theorem parse_peer_params_isOk_iff (M : UrlModel) (s : Str) :
    exceptIsOk (parse_peer_params M s) = true ↔
      ∃ f1 f2 f3 f4, splitOnAt s = [f1, f2, f3, f4] ∧
        (M.parse f1).isSome = true ∧ (M.parse f2).isSome = true ∧
        (fromHex f4).isSome = true := by
  by_cases hlen : (splitOnAt s).length = 4
  · obtain ⟨f1, f2, f3, f4, hs⟩ := exists_four hlen
    rw [parse_peer_params_of_split M hs]
    cases h1 : M.parse f1 <;> cases h2 : M.parse f2 <;>
      cases h4 : fromHex f4 <;>
      simp_all [exceptIsOk, hs]
    all_goals
      first
      | exact ⟨f1, f2, f3, f4, ⟨rfl, rfl, rfl, rfl⟩, by simp [h1],
          by simp [h2], by simp [h4]⟩
      | (intro a1 a2 a3 a4 e1 e2 e3 e4 k1 k2
         subst e1
         subst e2
         subst e3
         subst e4
         simp_all)
  · rw [parse_peer_params_wrong_count M hlen]
    simp only [exceptIsOk, Bool.false_eq_true, false_iff, not_exists]
    intro f1 f2 f3 f4 hcontra
    rcases hcontra with ⟨hs', _⟩
    rw [hs'] at hlen
    exact hlen rfl

/-! ## Concrete material for evaluating the theorems on explicit inputs -/

/-- A concrete connection string (peer `a`, certificate byte `0x01`). -/
def certA : Str := "u://a@u://a@a@01".toList

/-- A concrete connection string (peer `b`, certificate byte `0x02`). -/
def certB : Str := "u://b@u://b@b@02".toList

/-- The parse of `certA`. -/
def pA : PeerServerParams MId :=
  { cert := [1], p2p_url := "u://a".toList, api_url := "u://a".toList,
    name := ['a'] }

/-- The parse of `certB`. -/
def pB : PeerServerParams MId :=
  { cert := [2], p2p_url := "u://b".toList, api_url := "u://b".toList,
    name := ['b'] }

/-- A DKG collaborator that always succeeds. -/
def envD : DkgEnv MId Unit := { dkg := fun _ _ => .ok () }

/-- A directory whose `tls-cert` holds `certA`. -/
def fsA : FS := [(TLS_CERT, certA)]

/-- A directory that already contains `private.salt`. -/
def fs0 : FS := [(SALT_FILE, "00".toList)]

/-- Concrete collaborator outcomes for `create_cert`. -/
def envC : CertEnv :=
  { saltBytes := List.replicate 16 171, certBytes := [205],
    pkSealed := "sealed".toList, genOk := true, nameValid := true }

/-- A concrete p2p URL. -/
def uP : MId.Url := "u://p".toList

/-- A concrete API URL. -/
def uQ : MId.Url := "u://q".toList

/-- A concrete guardian name. -/
def nmN : Str := ['n']

/-- A `certs` list longer than `2^16`. -/
def bigCerts : List Str := List.replicate 65537 certA

/-- A connection string with five `@`-separated fields. -/
def fiveField : Str := "a@b@c@d@e".toList

/-- A `PeerServerParams` whose p2p URL prints with an embedded `@`
(URLs with userinfo, e.g. `x://u@h`, do). -/
def pCx : PeerServerParams MId :=
  { cert := [], p2p_url := "x://u@h".toList, api_url := "x://v".toList,
    name := ['n'] }

/-! ## The claims -/

/-- Claim C4: `run_dkg` never creates, modifies, or deletes any file in
the config directory, on success or on any failure: its only filesystem
access is the read of `tls-cert`, and the directory state it returns is
the one it was given, in every branch. -/
theorem claim_C4 (M : UrlModel) (Cfg : Type) (env : DkgEnv M Cfg)
    (certs : List Str) (fs : FS) :
    (run_dkg M Cfg env certs fs).1 = fs := by
  rw [run_dkg]
  repeat' split
  all_goals rfl

/-- Claim C8: when the certificate bytes read from `dir/tls-cert` match
no entry of the sorted roster, `run_dkg` fails with the
"Our id not found" error (`SelfNotInRoster`) and the network-event trace
is empty: no connection is opened, whatever the DKG collaborator would
have done. -/
theorem claim_C8 (M : UrlModel) (Cfg : Type) (env : DkgEnv M Cfg)
    (certs : List Str) (fs : FS) (peers : List (Nat × PeerServerParams M))
    (cert_string : Str) (our_params : PeerServerParams M)
    (h1 : assignPeers M certs = .ok peers)
    (h2 : fsRead fs TLS_CERT = some cert_string)
    (h3 : parse_peer_params M cert_string = .ok our_params)
    (h4 : ∀ pr ∈ peers, pr.2.cert ≠ our_params.cert) :
    run_dkg M Cfg env certs fs = (fs, [], .error .ourIdNotFound) := by
  have hfind : peers.find? (fun pc => pc.2.cert = our_params.cert) = none := by
    apply List.find?_eq_none.mpr
    intro pr hpr
    simpa using h4 pr hpr
  simp only [run_dkg, h1, h2, h3, hfind]

/-- Witness for C8: peer `a`'s directory, a roster containing only
peer `b`; `run_dkg` fails with "Our id not found" and opens no
connection. -/
theorem claim_C8_witness :
    assignPeers MId [certB] = .ok [(0, pB)] ∧
    fsRead fsA TLS_CERT = some certA ∧
    parse_peer_params MId certA = .ok pA ∧
    run_dkg MId Unit envD [certB] fsA = (fsA, [], .error .ourIdNotFound) :=
  ⟨by decide, by decide, by decide,
    claim_C8 MId Unit envD [certB] fsA [(0, pB)] certA pA (by decide)
      (by decide) (by decide) (by decide)⟩

/-- Claim C10: when `create_cert` succeeds, the string it returns is
byte-for-byte the content it wrote to `dir/tls-cert`. -/
theorem claim_C10 (M : UrlModel) (env : CertEnv) (p2p api : M.Url)
    (name : Str) (fs fs' : FS) (s : Str)
    (h : create_cert M env p2p api name fs = (fs', .ok s)) :
    fsRead fs' TLS_CERT = some s := by
  by_cases hg : env.genOk = false
  · simp [create_cert, fsRead_fsWrite_self, gen_tls, hg] at h
  · by_cases hn : env.nameValid = false
    · simp [create_cert, fsRead_fsWrite_self, gen_tls, hg, hn] at h
    · simp [create_cert, fsRead_fsWrite_self, gen_tls, hg, hn,
        Prod.ext_iff] at h
      obtain ⟨h1, h2⟩ := h
      subst h1
      rw [← h2]
      exact fsRead_fsWrite_self _ _ _

/-- Claim C1: peer ids are assigned by sorting the connection strings in
lexicographic order and giving the string at sorted index `i` the id
`PeerId::from(i as u16)` — this is `assignSpec` — and consequently the
assignment, and all of `run_dkg`, is identical for any permutation of
`certs`. -/
theorem claim_C1 (M : UrlModel) (Cfg : Type) (env : DkgEnv M Cfg)
    (certs1 certs2 : List Str) (fs : FS) (h : certs1.Perm certs2) :
    assignPeers M certs1 = assignSpec M certs1 ∧
    assignPeers M certs1 = assignPeers M certs2 ∧
    run_dkg M Cfg env certs1 fs = run_dkg M Cfg env certs2 fs := by
  have hsort : sortCerts certs1 = sortCerts certs2 := sortCerts_eq_of_perm h
  have hassign : assignPeers M certs1 = assignPeers M certs2 := by
    rw [assignPeers, assignPeers, hsort]
  exact ⟨assignPeers_eq_assignSpec M certs1, hassign,
    by rw [run_dkg, run_dkg, hassign]⟩

/-- Witness for C1: the two orders of `[certA, certB]` produce the same
assignment and the same `run_dkg` outcome. -/
theorem claim_C1_witness :
    ([certB, certA] : List Str).Perm [certA, certB] ∧
    (assignPeers MId [certB, certA] = assignSpec MId [certB, certA] ∧
      assignPeers MId [certB, certA] = assignPeers MId [certA, certB] ∧
      run_dkg MId Unit envD [certB, certA] fsA =
        run_dkg MId Unit envD [certA, certB] fsA) :=
  ⟨List.Perm.swap certA certB [],
    claim_C1 MId Unit envD [certB, certA] [certA, certB] fsA
      (List.Perm.swap certA certB [])⟩

/-- Claim C2 is false on the code: `create_cert` performs no check for an
existing `private.salt`.  On a directory that already contains
`private.salt`, the call succeeds and the salt file's content changes. -/
theorem claim_C2_cx :
    fsRead fs0 SALT_FILE ≠ none ∧
    exceptIsOk (create_cert MId envC uP uQ nmN fs0).2 = true ∧
    fsRead (create_cert MId envC uP uQ nmN fs0).1 SALT_FILE ≠
      fsRead fs0 SALT_FILE :=
  ⟨by decide, by decide, by decide⟩

/-- Claim C2 amended: `create_cert` never checks for an existing
`private.salt`; on any directory state it overwrites the salt, then
`tls-pk`, then `tls-cert`, and succeeds whenever certificate generation
and the server-name check succeed. -/
theorem claim_C2_amended (M : UrlModel) (env : CertEnv) (p2p api : M.Url)
    (name : Str) (fs : FS) (hg : env.genOk = true)
    (hn : env.nameValid = true) :
    (create_cert M env p2p api name fs).2 =
      .ok (format_peer_params M p2p api name env.certBytes) ∧
    fsRead (create_cert M env p2p api name fs).1 SALT_FILE =
      some (toHex env.saltBytes) ∧
    fsRead (create_cert M env p2p api name fs).1 TLS_PK =
      some env.pkSealed ∧
    fsRead (create_cert M env p2p api name fs).1 TLS_CERT =
      some (format_peer_params M p2p api name env.certBytes) := by
  have hred : create_cert M env p2p api name fs =
      (fsWrite
          (fsWrite (fsWrite fs SALT_FILE (toHex env.saltBytes)) TLS_PK
            env.pkSealed)
          TLS_CERT (format_peer_params M p2p api name env.certBytes),
        .ok (format_peer_params M p2p api name env.certBytes)) := by
    simp [create_cert, fsRead_fsWrite_self, gen_tls, hg, hn]
  rw [hred]
  refine ⟨rfl, ?_, ?_, fsRead_fsWrite_self _ _ _⟩
  · rw [fsRead_fsWrite_ne _ (by decide), fsRead_fsWrite_ne _ (by decide),
      fsRead_fsWrite_self]
  · rw [fsRead_fsWrite_ne _ (by decide), fsRead_fsWrite_self]

/-- Witness for the amended C2: the concrete run on a directory that
already holds a salt. -/
theorem claim_C2_amended_witness :
    envC.genOk = true ∧ envC.nameValid = true ∧
    ((create_cert MId envC uP uQ nmN fs0).2 =
        .ok (format_peer_params MId uP uQ nmN envC.certBytes) ∧
      fsRead (create_cert MId envC uP uQ nmN fs0).1 SALT_FILE =
        some (toHex envC.saltBytes) ∧
      fsRead (create_cert MId envC uP uQ nmN fs0).1 TLS_PK =
        some envC.pkSealed ∧
      fsRead (create_cert MId envC uP uQ nmN fs0).1 TLS_CERT =
        some (format_peer_params MId uP uQ nmN envC.certBytes)) :=
  ⟨rfl, rfl, claim_C2_amended MId envC uP uQ nmN fs0 rfl rfl⟩

/-- Claim C3 is false on the code: `run_dkg` performs no duplicate
check.  With `certs = [certA, certA]` — two entries with identical
certificate bytes — the call succeeds, and both entries are assigned
peer ids (0 and 1). -/
theorem claim_C3_cx :
    exceptIsOk (run_dkg MId Unit envD [certA, certA] fsA).2.2 = true ∧
    assignPeers MId [certA, certA] = .ok [(0, pA), (1, pA)] :=
  ⟨by decide, by decide⟩

/-- Claim C3 amended: `run_dkg` does not reject duplicates.  Whenever
every entry of `certs` parses, the roster-building step succeeds
(duplicates included), and a duplicated connection string is assigned
two distinct consecutive peer ids. -/
theorem claim_C3_amended (M : UrlModel) (certs : List Str) (c : Str)
    (p : PeerServerParams M)
    (h : ∀ c' ∈ certs, exceptIsOk (parse_peer_params M c') = true)
    (hp : parse_peer_params M c = .ok p) :
    exceptIsOk (assignPeers M certs) = true ∧
    assignPeers M [c, c] = .ok [(0, p), (1, p)] := by
  refine ⟨assignPeers_isOk M certs h, ?_⟩
  have hsort : sortCerts [c, c] = [c, c] := by
    simp [sortCerts, List.insertionSort, List.orderedInsert]
  rw [assignPeers, hsort]
  simp only [assignLoop, hp]
  rfl

/-- Witness for the amended C3: the concrete duplicate roster. -/
theorem claim_C3_amended_witness :
    (∀ c' ∈ ([certA, certA] : List Str),
        exceptIsOk (parse_peer_params MId c') = true) ∧
    parse_peer_params MId certA = .ok pA ∧
    (exceptIsOk (assignPeers MId [certA, certA]) = true ∧
      assignPeers MId [certA, certA] = .ok [(0, pA), (1, pA)]) :=
  ⟨by decide, by decide,
    claim_C3_amended MId [certA, certA] certA pA (by decide) (by decide)⟩

/-- Claim C5 is false on the code: writes are not
write-to-temp-then-rename.  At the concrete `consensus` write, the
operation sequence issued by `plaintext_json_write` does not match the
atomic pattern (no temporary file, no rename). -/
theorem claim_C5_cx :
    ¬ AtomicWritePattern (plaintext_json_write_ops CONSENSUS_CONFIG ['x'])
      (withJsonExt CONSENSUS_CONFIG) := by
  rintro ⟨tmp, content, hne, heq⟩
  simp [plaintext_json_write_ops, fsWriteOps] at heq

/-- Claim C5 amended: every write the code issues (`fs::write` for the
salt and `tls-cert`; `File::create` + serialize for the json files)
opens/truncates the target directly and then writes the content in
place, never matching the write-to-temp-and-rename pattern; between the
two primitive operations the target is observable as an existing empty
file. -/
theorem claim_C5_amended (name : String) (content : Str) (fs : FS) :
    fsWriteOps name content =
      [FsOp.create name, FsOp.writeAll name content] ∧
    plaintext_json_write_ops name content =
      [FsOp.create (withJsonExt name),
        FsOp.writeAll (withJsonExt name) content] ∧
    (¬ AtomicWritePattern (fsWriteOps name content) name) ∧
    fsRead (applyOp fs (FsOp.create name)) name = some [] := by
  refine ⟨rfl, rfl, ?_, fsRead_fsSet_self fs name []⟩
  rintro ⟨tmp, c, hne, heq⟩
  simp [fsWriteOps] at heq

/-- Claim C6 is false as stated: the claimed validity conditions (URLs
that print and re-parse to themselves, a name without `@`) do not
suffice.  A URL whose printed form itself contains `@` — URLs with
userinfo, such as `x://u@h`, do — satisfies them, yet the formatted
string splits into five fields and parsing rejects it. -/
theorem claim_C6_cx :
    MId.parse (MId.print pCx.p2p_url) = some pCx.p2p_url ∧
    MId.parse (MId.print pCx.api_url) = some pCx.api_url ∧
    '@' ∉ pCx.name ∧
    parse_peer_params MId
        (format_peer_params MId pCx.p2p_url pCx.api_url pCx.name pCx.cert) ≠
      .ok pCx :=
  ⟨rfl, rfl, by decide, by decide⟩

/-- Claim C6 amended: the round-trip `parse(format(p)) = p` holds when,
in addition to the claimed hypotheses, the printed forms of the two URLs
contain no `@`. -/
theorem claim_C6_amended (M : UrlModel) (p : PeerServerParams M)
    (hp2p : M.parse (M.print p.p2p_url) = some p.p2p_url)
    (hapi : M.parse (M.print p.api_url) = some p.api_url)
    (h1 : '@' ∉ M.print p.p2p_url) (h2 : '@' ∉ M.print p.api_url)
    (h3 : '@' ∉ p.name) :
    parse_peer_params M
        (format_peer_params M p.p2p_url p.api_url p.name p.cert) = .ok p := by
  obtain ⟨cert, p2p, api, name⟩ := p
  exact parse_format M p2p api name cert hp2p hapi h1 h2 h3

/-- Witness for the amended C6: the concrete round-trip on `pA`. -/
theorem claim_C6_amended_witness :
    MId.parse (MId.print pA.p2p_url) = some pA.p2p_url ∧
    MId.parse (MId.print pA.api_url) = some pA.api_url ∧
    '@' ∉ MId.print pA.p2p_url ∧ '@' ∉ MId.print pA.api_url ∧
    '@' ∉ pA.name ∧
    parse_peer_params MId
        (format_peer_params MId pA.p2p_url pA.api_url pA.name pA.cert) =
      .ok pA :=
  ⟨rfl, rfl, by decide, by decide, by decide,
    claim_C6_amended MId pA rfl rfl (by decide) (by decide) (by decide)⟩

/-- Claim C7: `parse_peer_params` fails exactly when the input does not
split on `@` into four fields, a URL field fails to parse, or the
certificate field is not valid hex; `fromHex` fails exactly on odd
length or a non-hex character; and any field count other than four (in
particular 3 or 5) is rejected with the field-count error. -/
theorem claim_C7 (M : UrlModel) (s : Str) :
    (exceptIsOk (parse_peer_params M s) = false ↔
      ¬ ∃ f1 f2 f3 f4, splitOnAt s = [f1, f2, f3, f4] ∧
          (M.parse f1).isSome = true ∧ (M.parse f2).isSome = true ∧
          (fromHex f4).isSome = true) ∧
    (∀ t : Str, (fromHex t).isSome = false ↔
      ¬ (t.length % 2 = 0 ∧ ∀ c ∈ t, (hexDigitVal c).isSome = true)) ∧
    (∀ s' : Str, (splitOnAt s').length ≠ 4 →
      parse_peer_params M s' = .error .wrongFieldCount) := by
  refine ⟨?_, ?_, fun s' h => parse_peer_params_wrong_count M h⟩
  · rw [← parse_peer_params_isOk_iff M s]
    simp
  · intro t
    rw [← fromHex_isSome_iff t]
    simp

/-- Witness for C7: a five-field string is rejected with the field-count
error. -/
theorem claim_C7_witness :
    (splitOnAt fiveField).length ≠ 4 ∧
    parse_peer_params MId fiveField = .error .wrongFieldCount :=
  ⟨by decide, (claim_C7 MId fiveField).2.2 fiveField (by decide)⟩

/-- Claim C9 is false on the code: no length check is performed.  A
`certs` list of length `2^16 + 1` whose entries all parse is accepted by
the roster-building step rather than rejected (the `as u16` cast then
truncates ids modulo `2^16`). -/
theorem claim_C9_cx :
    65536 < bigCerts.length ∧
    exceptIsOk (assignPeers MId bigCerts) = true := by
  constructor
  · rw [show bigCerts.length = 65537 by rw [bigCerts, List.length_replicate]]
    omega
  · apply assignPeers_isOk
    intro c hc
    rw [show c = certA from List.eq_of_mem_replicate
      (show c ∈ List.replicate 65537 certA from hc)]
    decide

/-- Claim C9 amended: `run_dkg` performs no length check; the assigned
id is the enumeration index truncated by the `as u16` cast, modulo
`2^16`.  For any `certs` of length at most `2^16` whose roster-building
succeeds, the assigned ids are exactly `0, …, len − 1`: pairwise
distinct and all inside `[0, 2^16)`. -/
theorem claim_C9_amended (M : UrlModel) (certs : List Str)
    (m : List (Nat × PeerServerParams M))
    (h : assignPeers M certs = .ok m) (hlen : certs.length ≤ 65536) :
    m.map Prod.fst = List.range certs.length ∧
    (m.map Prod.fst).Nodup ∧
    ∀ k ∈ m.map Prod.fst, k < 65536 := by
  have hslen : (sortCerts certs).length = certs.length :=
    (sortCerts_perm certs).length_eq
  have hkeys := assignLoop_keys M (sortCerts certs) [] m 0 (by simp)
    (by simpa [hslen] using hlen) h
  rw [hslen] at hkeys
  have hkeys' : m.map Prod.fst = List.range certs.length := by
    rw [hkeys]
    congr 1
    omega
  refine ⟨hkeys', ?_, ?_⟩
  · rw [hkeys']
    exact List.nodup_range _
  · rw [hkeys']
    intro k hk
    have hk' := List.mem_range.mp hk
    omega

/-- Witness for the amended C9: the concrete two-peer roster gets ids
`[0, 1]`. -/
theorem claim_C9_amended_witness :
    assignPeers MId [certA, certB] = .ok [(0, pA), (1, pB)] ∧
    ([certA, certB] : List Str).length ≤ 65536 ∧
    (([(0, pA), (1, pB)] : List (Nat × PeerServerParams MId)).map Prod.fst =
        List.range ([certA, certB] : List Str).length ∧
      (([(0, pA), (1, pB)] :
          List (Nat × PeerServerParams MId)).map Prod.fst).Nodup ∧
      ∀ k ∈ ([(0, pA), (1, pB)] :
          List (Nat × PeerServerParams MId)).map Prod.fst, k < 65536) :=
  ⟨by decide, by decide,
    claim_C9_amended MId [certA, certB] [(0, pA), (1, pB)] (by decide)
      (by decide)⟩

/-- Witness for C10: the concrete `create_cert` run returns exactly the
string stored in `tls-cert`. -/
theorem claim_C10_witness :
    create_cert MId envC uP uQ nmN [] =
      ((create_cert MId envC uP uQ nmN []).1,
        .ok (format_peer_params MId uP uQ nmN envC.certBytes)) ∧
    fsRead (create_cert MId envC uP uQ nmN []).1 TLS_CERT =
      some (format_peer_params MId uP uQ nmN envC.certBytes) :=
  ⟨by decide,
    claim_C10 MId envC uP uQ nmN [] (create_cert MId envC uP uQ nmN []).1
      (format_peer_params MId uP uQ nmN envC.certBytes) (by decide)⟩

end FedimintConfig
